import Mathlib

/-!
Verification model of `src/kg_manager.py` (CareerHunt knowledge-graph manager).

The module keeps a `networkx.Graph` `G`, a dict `embeddings` mapping node ids
to numeric vectors, and an on-disk change log `new_nodes_log.json`; it exposes
`add_node_with_neighbors` (the spec's `insert_node`) and `nightly_retrain`
(the spec's `rebuild`), run from a `schedule` timer loop.

Numeric values are modelled over `ℚ`; vectors are `List ℚ`.  File writes may
raise an IO exception; a failure-injection argument selects which write (if
any) raises, `none` being the failure-free run.  The Node2Vec training step
is modelled by an opaque function `train : String → Fin 32 → ℚ` (the library
returns a vector of the configured dimension 32 for every node of the graph
it was fitted on).
-/

abbrev Vec := List ℚ

/-- Python `s.startswith(p)`: character-list semantics. -/
def pyStartsWith (s p : String) : Bool :=
  p.data.isPrefixOf s.data

/-- Python `s.strip()`: remove leading and trailing whitespace. -/
def pyStrip (s : String) : String :=
  ⟨((s.data.dropWhile Char.isWhitespace).reverse.dropWhile Char.isWhitespace).reverse⟩

/-- Python `s.split(sep)` for a one-character separator. -/
def pySplit (s : String) (sep : Char) : List String :=
  (s.data.splitOn sep).map fun cs => ⟨cs⟩

/-- Undirected graph with a per-node `type` attribute and a per-edge
`relation` attribute, modelling the `networkx.Graph` used by the module:
node ids are strings, edges are unordered pairs (duplicate `add_edge`
calls collapse), attributes set again are overwritten. -/
structure NXGraph where
  nodeIds : Finset String
  nodeType : String → Option String
  edges : Finset (Sym2 String)
  edgeRel : Sym2 String → Option String

/-- Fresh empty graph, `nx.Graph()`. -/
def NXGraph.empty : NXGraph :=
  { nodeIds := ∅, nodeType := fun _ => none, edges := ∅, edgeRel := fun _ => none }

/-- `G.add_node(n, type=t)`: inserts the node and (over)writes its type. -/
def NXGraph.addNode (G : NXGraph) (n t : String) : NXGraph :=
  { G with nodeIds := insert n G.nodeIds
           nodeType := Function.update G.nodeType n (some t) }

/-- `G.add_edge(u, v)` with no attributes: auto-creates missing endpoints,
records the undirected edge, leaves node and edge attributes alone. -/
def NXGraph.addEdge (G : NXGraph) (u v : String) : NXGraph :=
  { G with nodeIds := insert u (insert v G.nodeIds)
           edges := insert s(u, v) G.edges }

/-- `G.add_edge(u, v, relation=r)`: as `addEdge`, also setting the edge's
`relation` attribute. -/
def NXGraph.addEdgeRel (G : NXGraph) (u v r : String) : NXGraph :=
  { G with nodeIds := insert u (insert v G.nodeIds)
           edges := insert s(u, v) G.edges
           edgeRel := Function.update G.edgeRel s(u, v) (some r) }

/-- In-memory module globals: the graph `G` and the dict `embeddings`. -/
structure MemState where
  G : NXGraph
  embeddings : String → Option Vec

/-- Whole observable state: the in-memory globals plus the three files the
module writes (`careerhunt_kg.gpickle`, `embeddings.json`,
`new_nodes_log.json`). -/
structure SysState where
  mem : MemState
  diskG : NXGraph
  diskEmb : String → Option Vec
  newNodesLog : List (String × String)

/-- Which file write of `add_node_with_neighbors` raises an IO error. -/
inductive FailAt
  | logWrite
  | graphWrite
  | embWrite
deriving DecidableEq

/-- Which step of `nightly_retrain` raises. -/
inductive RebuildFail
  | datasetRead
  | training
  | graphWrite
  | embWrite
deriving DecidableEq

/-- Errors surfaced by the two operations. -/
inductive KGError
  | invalidType
  | persistFail
  | datasetReadFail
  | trainingFail
deriving DecidableEq

/-- `log_new_node`: read `new_nodes_log.json`, append the entry, write it
back. -/
def log_new_node (st : SysState) (node_name node_type : String) : SysState :=
  { st with newNodesLog := st.newNodesLog ++ [(node_name, node_type)] }

/-- Pointwise sum of a nonempty family of equal-length vectors
(`np.array(vs).sum(axis=0)` under numpy's homogeneity requirement). -/
def vecSum : List Vec → Vec
  | [] => []
  | [v] => v
  | v :: vs => List.zipWith (· + ·) v (vecSum vs)

/-- `np.array(vs).mean(axis=0)`: pointwise sum divided by the row count. -/
def npMean (vs : List Vec) : Vec :=
  (vecSum vs).map (fun x => x / (vs.length : ℚ))

/-- Body of the neighbor loop of `add_node_with_neighbors`: if the neighbor
is absent it is created with the type inferred from its id prefix (no node
is created explicitly when no prefix matches), then the undirected edge is
added (which itself auto-creates a still-missing endpoint, untyped). -/
def addNeighborStep (node_name : String) (G : NXGraph) (n : String) : NXGraph :=
  let G1 :=
    if n ∈ G.nodeIds then G
    else if pyStartsWith n ("job_") then G.addNode n ("job")
    else if pyStartsWith n ("skill_") then G.addNode n ("skill")
    else if pyStartsWith n ("company_") then G.addNode n ("company")
    else G
  G1.addEdge node_name n

/-- Approximate embedding of the inserted node: the `axis=0` mean over the
embeddings of the listed neighbors that are present in the `embeddings`
dict (each list occurrence contributing), else a fresh 32-component draw
`np.random.normal(scale=0.01, size=32)`, supplied here as `fresh`. -/
def approx_embedding (emb : String → Option Vec) (neighbors : List String)
    (fresh : Fin 32 → ℚ) : Vec :=
  let vecs := (neighbors.filter (fun n => (emb n).isSome)).filterMap emb
  if vecs = [] then List.ofFn fresh else npMean vecs

/-- `add_node_with_neighbors(node_name, node_type, neighbors)`.

Faithful step order: validate the type (raising `ValueError` before any
mutation), add the node to the in-memory graph, process neighbors (create
missing ones by prefix inference, add edges), store the approximate
embedding in the in-memory dict, append to `new_nodes_log.json`, write the
graph pickle, write `embeddings.json`.  `fail` injects an IO failure at the
named write; the exception propagates immediately, leaving every earlier
effect (in particular all in-memory mutation) in place. -/
def add_node_with_neighbors (st : SysState) (node_name node_type : String)
    (neighbors : List String) (fresh : Fin 32 → ℚ) (fail : Option FailAt) :
    SysState × Option KGError :=
  if node_type ∉ (["job", "skill", "company"] : List String) then
    (st, some KGError.invalidType)
  else
    let G1 := st.mem.G.addNode node_name node_type
    let G2 := neighbors.foldl (addNeighborStep node_name) G1
    let emb2 := Function.update st.mem.embeddings node_name
      (some (approx_embedding st.mem.embeddings neighbors fresh))
    let st1 : SysState := { st with mem := ⟨G2, emb2⟩ }
    if fail = some FailAt.logWrite then (st1, some KGError.persistFail)
    else
      let st2 := log_new_node st1 node_name node_type
      if fail = some FailAt.graphWrite then (st2, some KGError.persistFail)
      else
        let st3 : SysState := { st2 with diskG := G2 }
        if fail = some FailAt.embWrite then (st3, some KGError.persistFail)
        else ({ st3 with diskEmb := emb2 }, none)

/-- One row of `jobs.csv`: job id, title, company, and the raw
comma-delimited `required_skills` cell. -/
structure JobRow where
  job_id : String
  title : String
  company : String
  required_skills : String

/-- Node id `f"job_{row['job_id']}"`. -/
def jobNodeOf (r : JobRow) : String := "job_" ++ r.job_id

/-- Node id `f"company_{row['company']}"`. -/
def companyNodeOf (r : JobRow) : String := "company_" ++ r.company

/-- Node id `f"skill_{skill}"` for an already-stripped skill token. -/
def skillNodeOf (s : String) : String := "skill_" ++ s

/-- The stripped skill tokens of a row,
`[s.strip() for s in row["required_skills"].split(",")]`. -/
def rowSkills (r : JobRow) : List String :=
  (pySplit r.required_skills (',')).map (fun s => pyStrip s)

/-- Per-row body of the rebuild loop: add the job node, the company node,
the POSTED_BY edge, then per stripped skill the skill node and its
REQUIRES_SKILL edge. -/
def rowStep (G : NXGraph) (r : JobRow) : NXGraph :=
  let G1 := G.addNode (jobNodeOf r) ("job")
  let G2 := G1.addNode (companyNodeOf r) ("company")
  let G3 := G2.addEdgeRel (jobNodeOf r) (companyNodeOf r) ("POSTED_BY")
  (pySplit r.required_skills (',')).foldl
    (fun g s0 =>
      let skill := pyStrip s0
      (g.addNode (skillNodeOf skill) ("skill")).addEdgeRel
        (jobNodeOf r) (skillNodeOf skill) ("REQUIRES_SKILL"))
    G3

/-- The fresh graph `G_new` built by `nightly_retrain` from the dataset. -/
def buildGraph (jobs : List JobRow) : NXGraph :=
  jobs.foldl rowStep NXGraph.empty

/-- The trained embedding table
`{node: model.wv[node].tolist() for node in G_new.nodes()}`. -/
def trainedEmb (G_new : NXGraph) (train : String → Fin 32 → ℚ) :
    String → Option Vec :=
  fun n => if n ∈ G_new.nodeIds then some (List.ofFn (train n)) else none

/-- `nightly_retrain()`.

Faithful step order: read `jobs.csv` (may raise), build `G_new` (pure),
fit Node2Vec (may raise; `G_new` is a local, so the state is untouched),
write the graph pickle, write `embeddings.json`, assign the module globals
`G, embeddings = G_new, new_embeddings`, clear `new_nodes_log.json`.
`fail` injects a failure at the named step; the exception propagates,
leaving the effects already performed in place. -/
def nightly_retrain (st : SysState) (jobs : List JobRow)
    (train : String → Fin 32 → ℚ) (fail : Option RebuildFail) :
    SysState × Option KGError :=
  if fail = some RebuildFail.datasetRead then (st, some KGError.datasetReadFail)
  else
    let G_new := buildGraph jobs
    if fail = some RebuildFail.training then (st, some KGError.trainingFail)
    else
      let new_embeddings := trainedEmb G_new train
      if fail = some RebuildFail.graphWrite then (st, some KGError.persistFail)
      else
        let st1 : SysState := { st with diskG := G_new }
        if fail = some RebuildFail.embWrite then (st1, some KGError.persistFail)
        else
          ({ st1 with diskEmb := new_embeddings
                      mem := ⟨G_new, new_embeddings⟩
                      newNodesLog := [] }, none)

/-- Modelled from the spec: `get_node(id)` of §4.1.  The repository exposes
the module global `G` directly; a reader query is a lookup in the in-memory
graph, returning the node's attribute view (here its `type` attribute) or
NotFound (`none`). -/
def get_node (st : SysState) (n : String) : Option (Option String) :=
  if n ∈ st.mem.G.nodeIds then some (st.mem.G.nodeType n) else none

/-- Modelled from the spec: `get_embedding(id)` of §4.1.  A lookup in the
in-memory `embeddings` dict, `none` being NotFound. -/
def get_embedding (st : SysState) (n : String) : Option Vec :=
  st.mem.embeddings n

/-- Outcome of one pass of the timer loop. -/
inductive LoopOutcome
  | continues (st : SysState)
  | crashed (st : SysState) (e : KGError)

/-- One iteration of `while True: schedule.run_pending(); time.sleep(60)`
at a tick where the daily job fires.  The `schedule` library does not catch
job exceptions and the loop body has no handler, so an exception raised by
`nightly_retrain` propagates out of `run_pending` and terminates the loop
(`crashed`); otherwise the loop continues with the updated state. -/
def scheduleTick (st : SysState) (jobs : List JobRow)
    (train : String → Fin 32 → ℚ) (fail : Option RebuildFail) : LoopOutcome :=
  match nightly_retrain st jobs train fail with
  | (st', none) => LoopOutcome.continues st'
  | (st', some e) => LoopOutcome.crashed st' e

/-- The in-memory graph as mutated by a (valid-type) insert call. -/
def insertedGraph (st : SysState) (name ty : String) (nb : List String) : NXGraph :=
  nb.foldl (addNeighborStep name) (st.mem.G.addNode name ty)

/-- The in-memory embedding dict as mutated by a (valid-type) insert call. -/
def insertedEmb (st : SysState) (name : String) (nb : List String)
    (fresh : Fin 32 → ℚ) : String → Option Vec :=
  Function.update st.mem.embeddings name
    (some (approx_embedding st.mem.embeddings nb fresh))

/-- The node set the spec expects per dataset: one id per job row. -/
def jobNodes (jobs : List JobRow) : Finset String :=
  (jobs.map jobNodeOf).toFinset

/-- One node id per distinct company of the dataset. -/
def companyNodes (jobs : List JobRow) : Finset String :=
  (jobs.map companyNodeOf).toFinset

/-- One node id per distinct (stripped) skill of the dataset. -/
def skillNodes (jobs : List JobRow) : Finset String :=
  ((jobs.flatMap rowSkills).map skillNodeOf).toFinset

/-- The expected job–company edges, one per row. -/
def postedByEdges (jobs : List JobRow) : Finset (Sym2 String) :=
  (jobs.map (fun r => s(jobNodeOf r, companyNodeOf r))).toFinset

/-- The expected job–skill edges, one per (job, skill) pair. -/
def requiresSkillEdges (jobs : List JobRow) : Finset (Sym2 String) :=
  (jobs.flatMap (fun r => (rowSkills r).map (fun sk => s(jobNodeOf r, skillNodeOf sk)))).toFinset

/-- Empty start state: the fresh-store startup path of the module. -/
def st0 : SysState :=
  { mem := { G := NXGraph.empty, embeddings := fun _ => none },
    diskG := NXGraph.empty, diskEmb := fun _ => none, newNodesLog := [] }

/-- Concrete noise draw used in witness runs. -/
def fresh0 : Fin 32 → ℚ := fun _ => 0

/-- Concrete trained-model stub used in witness runs. -/
def train0 : String → Fin 32 → ℚ := fun _ _ => 0

/-- State whose embedding dict has one-dimensional vectors for two skills,
used to exhibit duplicate-neighbor weighting. -/
def stDup : SysState :=
  { mem := { G := NXGraph.empty,
             embeddings := fun n =>
               if n = "skill_a" then some [0]
               else if n = "skill_b" then some [3] else none },
    diskG := NXGraph.empty, diskEmb := fun _ => none, newNodesLog := [] }

/-- State whose embedding dict holds known vectors e1 = [1, 3] for
`skill_Go` and e2 = [3, 5] for `skill_Rust`. -/
def stW : SysState :=
  { mem := { G := NXGraph.empty,
             embeddings := fun n =>
               if n = "skill_Go" then some [1, 3]
               else if n = "skill_Rust" then some [3, 5] else none },
    diskG := NXGraph.empty, diskEmb := fun _ => none, newNodesLog := [] }

/-- A one-row dataset used in witness runs. -/
def row1 : JobRow :=
  { job_id := "1", title := "Dev", company := "Acme", required_skills := "Go, Rust" }

/-- A three-row dataset: 3 jobs, 2 distinct companies, 3 distinct skills,
per-row skill counts 2, 1, 3. -/
def jobs3 : List JobRow :=
  [{ job_id := "1", title := "Dev", company := "Acme", required_skills := "Go, Rust" },
   { job_id := "2", title := "Ops", company := "Beta", required_skills := "Go" },
   { job_id := "3", title := "Eng", company := "Acme", required_skills := "Rust, SQL , Go" }]

/-- Per-skill body of the rebuild row loop, phrased over the stripped
skill token. -/
def skStep (r : JobRow) (g : NXGraph) (sk : String) : NXGraph :=
  (g.addNode (skillNodeOf sk) ("skill")).addEdgeRel
    (jobNodeOf r) (skillNodeOf sk) ("REQUIRES_SKILL")

/-- All node ids contributed by one dataset row. -/
def rowNodes (r : JobRow) : Finset String :=
  insert (jobNodeOf r)
    (insert (companyNodeOf r) (((rowSkills r).map skillNodeOf).toFinset))

/-- The job–skill edges contributed by one dataset row. -/
def rowSkillEdges (r : JobRow) : Finset (Sym2 String) :=
  ((rowSkills r).map (fun sk => s(jobNodeOf r, skillNodeOf sk))).toFinset

/-- All edges contributed by one dataset row. -/
def rowEdges (r : JobRow) : Finset (Sym2 String) :=
  insert s(jobNodeOf r, companyNodeOf r) (rowSkillEdges r)

section StructuralLemmas

variable {name n m ty : String} {G : NXGraph} {nb : List String}

theorem addNeighborStep_nodeIds :
    (addNeighborStep name G n).nodeIds = insert name (insert n G.nodeIds) := by
  unfold addNeighborStep NXGraph.addEdge NXGraph.addNode
  split_ifs <;> simp

theorem addNeighborStep_edges :
    (addNeighborStep name G n).edges = insert s(name, n) G.edges := by
  unfold addNeighborStep NXGraph.addEdge NXGraph.addNode
  split_ifs <;> rfl

theorem addNeighborStep_edgeRel :
    (addNeighborStep name G n).edgeRel = G.edgeRel := by
  unfold addNeighborStep NXGraph.addEdge NXGraph.addNode
  split_ifs <;> rfl

theorem addNeighborStep_nodeType_of_mem (h : n ∈ G.nodeIds) :
    (addNeighborStep name G n).nodeType = G.nodeType := by
  unfold addNeighborStep NXGraph.addEdge
  rw [if_pos h]

theorem addNeighborStep_nodeType_ne (h : m ≠ n) :
    (addNeighborStep name G n).nodeType m = G.nodeType m := by
  unfold addNeighborStep NXGraph.addEdge NXGraph.addNode
  split_ifs <;> simp [Function.update_apply, h]

theorem addNeighborStep_nodeType_self (h : n ∉ G.nodeIds) :
    (addNeighborStep name G n).nodeType n =
      (if pyStartsWith n ("job_") then some ("job")
       else if pyStartsWith n ("skill_") then some ("skill")
       else if pyStartsWith n ("company_") then some ("company")
       else G.nodeType n) := by
  unfold addNeighborStep NXGraph.addEdge NXGraph.addNode
  rw [if_neg h]
  split_ifs <;> simp [Function.update_apply]

theorem foldl_step_edges (name : String) (nb : List String) (G : NXGraph) :
    (nb.foldl (addNeighborStep name) G).edges
      = G.edges ∪ (nb.map (fun n => s(name, n))).toFinset := by
  induction nb generalizing G with
  | nil => simp
  | cons n nb ih =>
      rw [List.foldl_cons, ih, addNeighborStep_edges]
      simp [Finset.insert_union, Finset.union_insert]

theorem foldl_step_edgeRel (name : String) (nb : List String) (G : NXGraph) :
    (nb.foldl (addNeighborStep name) G).edgeRel = G.edgeRel := by
  induction nb generalizing G with
  | nil => rfl
  | cons n nb ih => rw [List.foldl_cons, ih, addNeighborStep_edgeRel]

theorem foldl_step_nodeIds_mono (name : String) (nb : List String) (G : NXGraph) :
    G.nodeIds ⊆ (nb.foldl (addNeighborStep name) G).nodeIds := by
  induction nb generalizing G with
  | nil => exact Finset.Subset.refl _
  | cons n nb ih =>
      rw [List.foldl_cons]
      refine Finset.Subset.trans ?_ (ih _)
      rw [addNeighborStep_nodeIds]
      intro x hx
      simp only [Finset.mem_insert]
      tauto

theorem foldl_step_mem_nodeIds (name : String) (nb : List String) (G : NXGraph)
    (h : n ∈ nb) : n ∈ (nb.foldl (addNeighborStep name) G).nodeIds := by
  induction nb generalizing G with
  | nil => cases h
  | cons m nb ih =>
      rw [List.foldl_cons]
      rcases List.mem_cons.mp h with h1 | h1
      · subst h1
        refine foldl_step_nodeIds_mono name nb _ ?_
        rw [addNeighborStep_nodeIds]
        simp
      · exact ih _ h1

theorem foldl_step_nodeType_of_mem (name : String) (nb : List String) (G : NXGraph)
    (h : m ∈ G.nodeIds) :
    (nb.foldl (addNeighborStep name) G).nodeType m = G.nodeType m := by
  induction nb generalizing G with
  | nil => rfl
  | cons n nb ih =>
      rw [List.foldl_cons]
      have hmem : m ∈ (addNeighborStep name G n).nodeIds := by
        rw [addNeighborStep_nodeIds]
        simp [h]
      rw [ih _ hmem]
      rcases eq_or_ne n m with rfl | hne
      · rw [addNeighborStep_nodeType_of_mem h]
      · exact addNeighborStep_nodeType_ne hne.symm

theorem foldl_step_nodeType_fresh (name : String) (nb : List String) (G : NXGraph)
    (hname : n ≠ name) (hn : n ∉ G.nodeIds) (hmem : n ∈ nb) :
    (nb.foldl (addNeighborStep name) G).nodeType n =
      (if pyStartsWith n ("job_") then some ("job")
       else if pyStartsWith n ("skill_") then some ("skill")
       else if pyStartsWith n ("company_") then some ("company")
       else G.nodeType n) := by
  induction nb generalizing G with
  | nil => cases hmem
  | cons m nb ih =>
      rw [List.foldl_cons]
      rcases eq_or_ne n m with rfl | hne
      · have hin : n ∈ (addNeighborStep name G n).nodeIds := by
          rw [addNeighborStep_nodeIds]; simp
        rw [foldl_step_nodeType_of_mem name nb _ hin,
          addNeighborStep_nodeType_self hn]
      · have hnin : n ∉ (addNeighborStep name G m).nodeIds := by
          rw [addNeighborStep_nodeIds]
          simp [hname, hne, hn]
        have hmem' : n ∈ nb := by
          rcases List.mem_cons.mp hmem with h1 | h1
          · exact absurd h1 hne
          · exact h1
        rw [ih _ hnin hmem', addNeighborStep_nodeType_ne hne]

end StructuralLemmas

section OperationShape

variable {st : SysState} {name ty : String} {nb : List String} {fresh : Fin 32 → ℚ}

theorem add_node_invalid (h : ty ∉ (["job", "skill", "company"] : List String)) :
    ∀ fail, add_node_with_neighbors st name ty nb fresh fail =
      (st, some KGError.invalidType) := by
  intro fail
  unfold add_node_with_neighbors
  rw [if_pos h]

theorem add_node_success (h : ty ∈ (["job", "skill", "company"] : List String)) :
    add_node_with_neighbors st name ty nb fresh none =
      ({ mem := ⟨insertedGraph st name ty nb, insertedEmb st name nb fresh⟩,
         diskG := insertedGraph st name ty nb,
         diskEmb := insertedEmb st name nb fresh,
         newNodesLog := st.newNodesLog ++ [(name, ty)] }, none) := by
  unfold add_node_with_neighbors insertedGraph insertedEmb
  rw [if_neg (by simp [h])]
  simp [log_new_node]

theorem add_node_fail_log (h : ty ∈ (["job", "skill", "company"] : List String)) :
    add_node_with_neighbors st name ty nb fresh (some FailAt.logWrite) =
      ({ st with mem := ⟨insertedGraph st name ty nb, insertedEmb st name nb fresh⟩ },
       some KGError.persistFail) := by
  unfold add_node_with_neighbors insertedGraph insertedEmb
  rw [if_neg (by simp [h])]
  simp

theorem add_node_fail_graph (h : ty ∈ (["job", "skill", "company"] : List String)) :
    add_node_with_neighbors st name ty nb fresh (some FailAt.graphWrite) =
      ({ st with mem := ⟨insertedGraph st name ty nb, insertedEmb st name nb fresh⟩,
                 newNodesLog := st.newNodesLog ++ [(name, ty)] },
       some KGError.persistFail) := by
  unfold add_node_with_neighbors insertedGraph insertedEmb
  rw [if_neg (by simp [h])]
  simp [log_new_node]

theorem add_node_fail_emb (h : ty ∈ (["job", "skill", "company"] : List String)) :
    add_node_with_neighbors st name ty nb fresh (some FailAt.embWrite) =
      ({ st with mem := ⟨insertedGraph st name ty nb, insertedEmb st name nb fresh⟩,
                 newNodesLog := st.newNodesLog ++ [(name, ty)],
                 diskG := insertedGraph st name ty nb },
       some KGError.persistFail) := by
  unfold add_node_with_neighbors insertedGraph insertedEmb
  rw [if_neg (by simp [h])]
  simp [log_new_node]

theorem add_node_mem_after (h : ty ∈ (["job", "skill", "company"] : List String))
    (fail : Option FailAt) :
    (add_node_with_neighbors st name ty nb fresh fail).1.mem =
      ⟨insertedGraph st name ty nb, insertedEmb st name nb fresh⟩ := by
  rcases fail with _ | fp
  · rw [add_node_success h]
  · cases fp
    · rw [add_node_fail_log h]
    · rw [add_node_fail_graph h]
    · rw [add_node_fail_emb h]

theorem insertedGraph_nodeType_name :
    (insertedGraph st name ty nb).nodeType name = some ty := by
  unfold insertedGraph
  rw [foldl_step_nodeType_of_mem name nb _ (by simp [NXGraph.addNode])]
  simp [NXGraph.addNode]

theorem name_mem_insertedGraph : name ∈ (insertedGraph st name ty nb).nodeIds := by
  refine foldl_step_nodeIds_mono name nb _ ?_
  simp [NXGraph.addNode]

theorem insertedEmb_name :
    insertedEmb st name nb fresh name =
      some (approx_embedding st.mem.embeddings nb fresh) := by
  simp [insertedEmb]

theorem add_node_G_after (h : ty ∈ (["job", "skill", "company"] : List String))
    (fail : Option FailAt) :
    (add_node_with_neighbors st name ty nb fresh fail).1.mem.G =
      insertedGraph st name ty nb := by
  rw [add_node_mem_after h fail]

theorem add_node_emb_after (h : ty ∈ (["job", "skill", "company"] : List String))
    (fail : Option FailAt) :
    (add_node_with_neighbors st name ty nb fresh fail).1.mem.embeddings =
      insertedEmb st name nb fresh := by
  rw [add_node_mem_after h fail]

theorem get_node_after_insert (h : ty ∈ (["job", "skill", "company"] : List String))
    (fail : Option FailAt) :
    get_node (add_node_with_neighbors st name ty nb fresh fail).1 name =
      some (some ty) := by
  unfold get_node
  rw [add_node_G_after h fail, if_pos name_mem_insertedGraph,
    insertedGraph_nodeType_name]

theorem get_embedding_after_insert (h : ty ∈ (["job", "skill", "company"] : List String))
    (fail : Option FailAt) :
    get_embedding (add_node_with_neighbors st name ty nb fresh fail).1 name =
      some (approx_embedding st.mem.embeddings nb fresh) := by
  unfold get_embedding
  rw [add_node_emb_after h fail, insertedEmb_name]

theorem nightly_retrain_success (st : SysState) (jobs : List JobRow)
    (train : String → Fin 32 → ℚ) :
    nightly_retrain st jobs train none =
      ({ mem := ⟨buildGraph jobs, trainedEmb (buildGraph jobs) train⟩,
         diskG := buildGraph jobs,
         diskEmb := trainedEmb (buildGraph jobs) train,
         newNodesLog := [] }, none) := rfl

theorem nightly_retrain_fail_emb (st : SysState) (jobs : List JobRow)
    (train : String → Fin 32 → ℚ) :
    nightly_retrain st jobs train (some RebuildFail.embWrite) =
      ({ st with diskG := buildGraph jobs }, some KGError.persistFail) := rfl

end OperationShape

section VecLemmas

theorem filter_isSome_filterMap (f : String → Option Vec) (l : List String) :
    (l.filter (fun n => (f n).isSome)).filterMap f = l.filterMap f := by
  induction l with
  | nil => rfl
  | cons x l ih =>
      by_cases hx : (f x).isSome
      · rcases Option.isSome_iff_exists.mp hx with ⟨v, hv⟩
        simp [List.filter_cons, hx, List.filterMap_cons, hv, ih]
      · simp only [Bool.not_eq_true] at hx
        have hx' : f x = none := Option.not_isSome_iff_eq_none.mp (by simp [hx])
        simp [List.filter_cons, hx, List.filterMap_cons, hx', ih]

theorem getD_zipWith_add (a b : Vec) (i : ℕ) (ha : i < a.length) (hb : i < b.length) :
    (List.zipWith (· + ·) a b).getD i 0 = a.getD i 0 + b.getD i 0 := by
  induction a generalizing b i with
  | nil => simp at ha
  | cons x xs ih =>
      cases b with
      | nil => simp at hb
      | cons y ys =>
          cases i with
          | zero => simp
          | succ j =>
              simp only [List.zipWith_cons_cons, List.getD_cons_succ]
              exact ih ys j (by simpa using ha) (by simpa using hb)

theorem vecSum_length {d : ℕ} (vs : List Vec) (hne : vs ≠ [])
    (hl : ∀ v ∈ vs, v.length = d) : (vecSum vs).length = d := by
  induction vs with
  | nil => cases hne rfl
  | cons v vs ih =>
      cases vs with
      | nil => simpa [vecSum] using hl v (by simp)
      | cons w ws =>
          have h1 : (vecSum (w :: ws)).length = d :=
            ih (by simp) (fun u hu => hl u (by simp [hu]))
          have h2 : v.length = d := hl v (by simp)
          simp [vecSum, h1, h2]

theorem vecSum_getD {d : ℕ} (vs : List Vec) (i : ℕ) (hne : vs ≠ [])
    (hl : ∀ v ∈ vs, v.length = d) (hi : i < d) :
    (vecSum vs).getD i 0 = (vs.map (fun v => v.getD i 0)).sum := by
  induction vs with
  | nil => cases hne rfl
  | cons v vs ih =>
      cases vs with
      | nil => simp [vecSum]
      | cons w ws =>
          have h1 : (vecSum (w :: ws)).length = d :=
            vecSum_length _ (by simp) (fun u hu => hl u (by simp [hu]))
          have h2 : v.length = d := hl v (by simp)
          have h3 := ih (by simp) (fun u hu => hl u (by simp [hu]))
          show (List.zipWith (· + ·) v (vecSum (w :: ws))).getD i 0 = _
          rw [getD_zipWith_add v _ i (by omega) (by omega), h3]
          simp

theorem npMean_length {d : ℕ} (vs : List Vec) (hne : vs ≠ [])
    (hl : ∀ v ∈ vs, v.length = d) : (npMean vs).length = d := by
  simp [npMean, vecSum_length vs hne hl]

theorem npMean_getD {d : ℕ} (vs : List Vec) (i : ℕ) (hne : vs ≠ [])
    (hl : ∀ v ∈ vs, v.length = d) (hi : i < d) :
    (npMean vs).getD i 0 =
      (vs.map (fun v => v.getD i 0)).sum / (vs.length : ℚ) := by
  have hlen : (vecSum vs).length = d := vecSum_length vs hne hl
  have hid : i < (vecSum vs).length := by omega
  unfold npMean
  rw [List.getD_eq_getElem _ _ (by simpa using hid)]
  rw [List.getElem_map]
  rw [← List.getD_eq_getElem _ _ hid, vecSum_getD vs i hne hl hi]

end VecLemmas

section CountLemma

theorem count_filterMap_ge (f : String → Option Vec) (nb : List String)
    (n : String) (v : Vec) (h : f n = some v) :
    nb.count n ≤ (nb.filterMap f).count v := by
  induction nb with
  | nil => simp
  | cons m nb ih =>
      rw [List.filterMap_cons]
      rcases eq_or_ne m n with rfl | hne
      · rw [h]
        have h1 : (m :: nb).count m = nb.count m + 1 := by simp [List.count_cons]
        have h2 : (v :: nb.filterMap f).count v = (nb.filterMap f).count v + 1 := by
          simp [List.count_cons]
        rw [h1, h2]
        omega
      · have h1 : (m :: nb).count n = nb.count n := by simp [List.count_cons, hne]
        cases hf : f m with
        | none => rw [h1]; exact ih
        | some w =>
            rw [h1]
            refine le_trans ih ?_
            simp only [List.count_cons]
            split <;> omega

end CountLemma

/-- Claim C1 (amended): after every successful `add_node_with_neighbors`,
the inserted node itself has exactly one embedding entry — of dimension 32
whenever every contributing neighbor embedding has dimension 32, and in
particular in the cold-start case — and after every successful
`nightly_retrain` every node of the rebuilt graph has exactly one
32-dimensional embedding.  The original store-wide form is refuted by
`embedding_completeness_cx`: a neighbor node created by the insert gets no
embedding entry. -/
theorem embedding_completeness_amended
    (st : SysState) (name ty : String) (nb : List String) (fresh : Fin 32 → ℚ)
    (hty : ty ∈ (["job", "skill", "company"] : List String)) :
    (get_embedding (add_node_with_neighbors st name ty nb fresh none).1 name
        = some (approx_embedding st.mem.embeddings nb fresh) ∧
      ((∀ v ∈ nb.filterMap st.mem.embeddings, v.length = 32) →
        (approx_embedding st.mem.embeddings nb fresh).length = 32)) ∧
    ∀ (st2 : SysState) (jobs : List JobRow) (train : String → Fin 32 → ℚ),
      ∀ n ∈ (nightly_retrain st2 jobs train none).1.mem.G.nodeIds,
        get_embedding (nightly_retrain st2 jobs train none).1 n
          = some (List.ofFn (train n)) ∧ (List.ofFn (train n)).length = 32 := by
  refine ⟨⟨get_embedding_after_insert hty none, ?_⟩, ?_⟩
  · intro hl
    unfold approx_embedding
    rw [filter_isSome_filterMap]
    by_cases hvecs : nb.filterMap st.mem.embeddings = []
    · rw [if_pos hvecs]
      simp
    · rw [if_neg hvecs]
      exact npMean_length _ hvecs hl
  · intro st2 jobs train n hn
    rw [nightly_retrain_success] at hn
    have hn' : n ∈ (buildGraph jobs).nodeIds := hn
    constructor
    · show (nightly_retrain st2 jobs train none).1.mem.embeddings n = _
      rw [nightly_retrain_success]
      show trainedEmb (buildGraph jobs) train n = _
      unfold trainedEmb
      rw [if_pos hn']
    · simp

/-- Counterexample to claim C1 as stated: a successful insert of `job_1`
with the fresh neighbor `skill_New` leaves `skill_New` present in the graph
with no embedding entry, so `get_embedding` reports a present node as
absent. -/
theorem embedding_completeness_cx :
    (add_node_with_neighbors st0 ("job_1") ("job") ["skill_New"] fresh0 none).2 = none ∧
    ("skill_New") ∈
      (add_node_with_neighbors st0 ("job_1") ("job") ["skill_New"] fresh0 none).1.mem.G.nodeIds ∧
    get_embedding (add_node_with_neighbors st0 ("job_1") ("job") ["skill_New"] fresh0 none).1
      ("skill_New") = none :=
  ⟨by decide, by decide, rfl⟩

/-- Witness for `embedding_completeness_amended` at a concrete cold-start
insert. -/
theorem embedding_completeness_amended_witness :
    ("job") ∈ (["job", "skill", "company"] : List String) ∧
    get_embedding (add_node_with_neighbors st0 ("job_1") ("job") [] fresh0 none).1 ("job_1")
      = some (approx_embedding st0.mem.embeddings [] fresh0) ∧
    (approx_embedding st0.mem.embeddings [] fresh0).length = 32 := by
  have h := embedding_completeness_amended st0 ("job_1") ("job") [] fresh0 (by decide)
  exact ⟨by decide, h.1.1, h.1.2 (by simp)⟩

/-- Claim C2 (amended): `add_node_with_neighbors` mutates the in-memory
state before persisting and performs three separate writes with no
rollback; when any of the writes fails, the call raises, yet the node stays
fully present in memory (retrievable with its type and embedding), the
ChangeLog entry survives whenever the failure came after the log write, and
the disk files written before the failing one keep their new content. -/
theorem insert_no_rollback_amended
    (st : SysState) (name ty : String) (nb : List String) (fresh : Fin 32 → ℚ)
    (hty : ty ∈ (["job", "skill", "company"] : List String)) (fp : FailAt) :
    (add_node_with_neighbors st name ty nb fresh (some fp)).2 = some KGError.persistFail ∧
    (add_node_with_neighbors st name ty nb fresh (some fp)).1.mem
      = ⟨insertedGraph st name ty nb, insertedEmb st name nb fresh⟩ ∧
    get_node (add_node_with_neighbors st name ty nb fresh (some fp)).1 name
      = some (some ty) ∧
    get_embedding (add_node_with_neighbors st name ty nb fresh (some fp)).1 name
      = some (approx_embedding st.mem.embeddings nb fresh) ∧
    (add_node_with_neighbors st name ty nb fresh (some fp)).1.diskEmb = st.diskEmb ∧
    (fp = FailAt.logWrite →
      (add_node_with_neighbors st name ty nb fresh (some fp)).1.newNodesLog
        = st.newNodesLog) ∧
    (fp ≠ FailAt.logWrite →
      (add_node_with_neighbors st name ty nb fresh (some fp)).1.newNodesLog
        = st.newNodesLog ++ [(name, ty)]) ∧
    (fp ≠ FailAt.embWrite →
      (add_node_with_neighbors st name ty nb fresh (some fp)).1.diskG = st.diskG) := by
  refine ⟨?_, add_node_mem_after hty (some fp), get_node_after_insert hty (some fp),
    get_embedding_after_insert hty (some fp), ?_, ?_, ?_, ?_⟩ <;>
    cases fp <;>
      simp [add_node_fail_log hty, add_node_fail_graph hty, add_node_fail_emb hty]

/-- Counterexample to claim C2 as stated: a graph-write failure during the
insert of `job_9` leaves the node retrievable from the in-memory state (not
NotFound), its ChangeLog entry present, and the disk graph without it — a
surviving partial state with no rollback. -/
theorem insert_atomicity_cx :
    (add_node_with_neighbors st0 ("job_9") ("job") [] fresh0 (some FailAt.graphWrite)).2
      = some KGError.persistFail ∧
    get_node (add_node_with_neighbors st0 ("job_9") ("job") [] fresh0
        (some FailAt.graphWrite)).1 ("job_9") = some (some ("job")) ∧
    (add_node_with_neighbors st0 ("job_9") ("job") [] fresh0
        (some FailAt.graphWrite)).1.newNodesLog = [("job_9", "job")] ∧
    (add_node_with_neighbors st0 ("job_9") ("job") [] fresh0
        (some FailAt.graphWrite)).1.diskG.nodeIds = ∅ :=
  ⟨by decide, by decide, by decide, by decide⟩

/-- Witness for `insert_no_rollback_amended` at a concrete graph-write
failure. -/
theorem insert_no_rollback_amended_witness :
    ("job") ∈ (["job", "skill", "company"] : List String) ∧
    get_node (add_node_with_neighbors st0 ("job_9") ("job") [] fresh0
        (some FailAt.graphWrite)).1 ("job_9") = some (some ("job")) ∧
    (add_node_with_neighbors st0 ("job_9") ("job") [] fresh0
        (some FailAt.graphWrite)).1.newNodesLog = [("job_9", "job")] := by
  have h := insert_no_rollback_amended st0 ("job_9") ("job") [] fresh0 (by decide)
    FailAt.graphWrite
  refine ⟨by decide, h.2.2.1, ?_⟩
  have h7 := h.2.2.2.2.2.2.1 (by decide)
  simpa using h7

/-- Claim C3 (amended): persistence is two separate sequential file writes
(graph pickle, then embeddings JSON), in both the insert path and the
rebuild path; a failure between the two leaves the persisted graph updated
— containing the new node, respectively being the rebuilt graph — while
the persisted embedding table still has its old content, so the persisted
graph can lack its matching embeddings.  The original atomic-unit claim is
refuted by `persistence_atomicity_cx`. -/
theorem persistence_split_write_amended
    (st : SysState) (name ty : String) (nb : List String) (fresh : Fin 32 → ℚ)
    (hty : ty ∈ (["job", "skill", "company"] : List String)) :
    ((add_node_with_neighbors st name ty nb fresh (some FailAt.embWrite)).2
        = some KGError.persistFail ∧
      name ∈ (add_node_with_neighbors st name ty nb fresh
          (some FailAt.embWrite)).1.diskG.nodeIds ∧
      (add_node_with_neighbors st name ty nb fresh (some FailAt.embWrite)).1.diskEmb
        = st.diskEmb) ∧
    ∀ (st2 : SysState) (jobs : List JobRow) (train : String → Fin 32 → ℚ),
      (nightly_retrain st2 jobs train (some RebuildFail.embWrite)).2
        = some KGError.persistFail ∧
      (nightly_retrain st2 jobs train (some RebuildFail.embWrite)).1.diskG
        = buildGraph jobs ∧
      (nightly_retrain st2 jobs train (some RebuildFail.embWrite)).1.diskEmb
        = st2.diskEmb := by
  constructor
  · rw [add_node_fail_emb hty]
    exact ⟨rfl, name_mem_insertedGraph, rfl⟩
  · intro st2 jobs train
    rw [nightly_retrain_fail_emb]
    exact ⟨rfl, rfl, rfl⟩

/-- Counterexample to claim C3 as stated: an embeddings-write failure
during the insert of `job_7` leaves the persisted graph containing the node
while the persisted embedding table has no entry for it — a partial
replace. -/
theorem persistence_atomicity_cx :
    ("job_7") ∈ (add_node_with_neighbors st0 ("job_7") ("job") [] fresh0
        (some FailAt.embWrite)).1.diskG.nodeIds ∧
    (add_node_with_neighbors st0 ("job_7") ("job") [] fresh0
        (some FailAt.embWrite)).1.diskEmb ("job_7") = none ∧
    (add_node_with_neighbors st0 ("job_7") ("job") [] fresh0
        (some FailAt.embWrite)).2 = some KGError.persistFail :=
  ⟨by decide, rfl, by decide⟩

/-- Witness for `persistence_split_write_amended` at a concrete input. -/
theorem persistence_split_write_amended_witness :
    ("job") ∈ (["job", "skill", "company"] : List String) ∧
    ("job_7") ∈ (add_node_with_neighbors st0 ("job_7") ("job") [] fresh0
        (some FailAt.embWrite)).1.diskG.nodeIds ∧
    (nightly_retrain st0 [row1] train0 (some RebuildFail.embWrite)).1.diskG
      = buildGraph [row1] := by
  have h := persistence_split_write_amended st0 ("job_7") ("job") [] fresh0 (by decide)
  exact ⟨by decide, h.1.2.1, (h.2 st0 [row1] train0).2.1⟩

/-- Claim C4 (amended): a rebuild failing at dataset read or at training
aborts before any write — the whole state, prior snapshot and ChangeLog
included, is exactly unchanged and an error is raised — but the exception
propagates out of `schedule.run_pending` through the unguarded `while True`
timer loop, so the process crashes instead of waiting for the next tick;
nothing catches or logs the failure and there is no automatic retry.  The
original never-crashes claim is refuted by
`rebuild_failure_containment_cx`. -/
theorem rebuild_failure_crash_amended (st : SysState) (jobs : List JobRow)
    (train : String → Fin 32 → ℚ) :
    nightly_retrain st jobs train (some RebuildFail.datasetRead)
      = (st, some KGError.datasetReadFail) ∧
    nightly_retrain st jobs train (some RebuildFail.training)
      = (st, some KGError.trainingFail) ∧
    scheduleTick st jobs train (some RebuildFail.datasetRead)
      = LoopOutcome.crashed st KGError.datasetReadFail ∧
    scheduleTick st jobs train (some RebuildFail.training)
      = LoopOutcome.crashed st KGError.trainingFail :=
  ⟨rfl, rfl, rfl, rfl⟩

/-- Counterexample to claim C4 as stated: a dataset-read failure makes the
timer-loop iteration end in `crashed` — the loop does not continue to the
next tick. -/
theorem rebuild_failure_containment_cx :
    scheduleTick st0 [] train0 (some RebuildFail.datasetRead)
      = LoopOutcome.crashed st0 KGError.datasetReadFail ∧
    nightly_retrain st0 [] train0 (some RebuildFail.datasetRead)
      = (st0, some KGError.datasetReadFail) :=
  ⟨rfl, rfl⟩

/-- Claim C5 (amended): `add_node_with_neighbors` validates only that the
supplied type is one of job/skill/company — an invalid type is rejected
synchronously with no mutation — and otherwise stores the supplied type
unconditionally: the id prefix is never compared against the type, and
re-inserting an existing node overwrites its stored type.  The
prefix-agreement and immutability parts of the original claim are refuted
by `type_prefix_agreement_cx`. -/
theorem type_validation_amended (st : SysState) (name ty : String)
    (nb : List String) (fresh : Fin 32 → ℚ) (fail : Option FailAt) :
    (ty ∉ (["job", "skill", "company"] : List String) →
      add_node_with_neighbors st name ty nb fresh fail
        = (st, some KGError.invalidType)) ∧
    (ty ∈ (["job", "skill", "company"] : List String) →
      (add_node_with_neighbors st name ty nb fresh fail).1.mem.G.nodeType name
        = some ty) := by
  constructor
  · exact fun h => add_node_invalid h fail
  · intro h
    rw [add_node_G_after h fail]
    exact insertedGraph_nodeType_name

/-- Counterexample to claim C5 as stated: inserting `skill_X` with type
`job` succeeds — no MalformedId rejection — and stores type `job` against
the `skill_` prefix; moreover re-inserting `skill_X` (first as a skill,
then as a job) silently changes its stored type. -/
theorem type_prefix_agreement_cx :
    pyStartsWith ("skill_X") ("skill_") = true ∧
    pyStartsWith ("skill_X") ("job_") = false ∧
    (add_node_with_neighbors st0 ("skill_X") ("job") [] fresh0 none).2 = none ∧
    (add_node_with_neighbors st0 ("skill_X") ("job") [] fresh0 none).1.mem.G.nodeType
      ("skill_X") = some ("job") ∧
    (add_node_with_neighbors st0 ("skill_X") ("skill") [] fresh0 none).1.mem.G.nodeType
      ("skill_X") = some ("skill") ∧
    (add_node_with_neighbors
        (add_node_with_neighbors st0 ("skill_X") ("skill") [] fresh0 none).1
        ("skill_X") ("job") [] fresh0 none).1.mem.G.nodeType ("skill_X")
      = some ("job") :=
  ⟨by decide, by decide, by decide, by decide, by decide, by decide⟩

/-- Witness for `type_validation_amended`: a valid-type insert stores the
supplied type, and an invalid type is rejected with the state unchanged. -/
theorem type_validation_amended_witness :
    (("job") ∈ (["job", "skill", "company"] : List String) ∧
      (add_node_with_neighbors st0 ("skill_X") ("job") [] fresh0 none).1.mem.G.nodeType
        ("skill_X") = some ("job")) ∧
    (("driver") ∉ (["job", "skill", "company"] : List String) ∧
      add_node_with_neighbors st0 ("skill_X") ("driver") [] fresh0 none
        = (st0, some KGError.invalidType)) :=
  ⟨⟨by decide,
      (type_validation_amended st0 ("skill_X") ("job") [] fresh0 none).2 (by decide)⟩,
    ⟨by decide,
      (type_validation_amended st0 ("skill_X") ("driver") [] fresh0 none).1 (by decide)⟩⟩

/-- Claim C6 (amended): for every edge recorded by a successful insert both
endpoints are present as graph nodes, and a previously absent neighbor is
created with the type inferred from its recognized id prefix; but a
neighbor whose prefix matches none of job_/skill_/company_ is created
implicitly by the edge insertion with no type attribute.  The
typed-endpoint part of the original claim is refuted by
`edge_endpoint_typed_cx`. -/
theorem edge_endpoints_amended (st : SysState) (name ty : String)
    (nb : List String) (fresh : Fin 32 → ℚ)
    (hty : ty ∈ (["job", "skill", "company"] : List String))
    (n : String) (hn : n ∈ nb) :
    n ∈ (add_node_with_neighbors st name ty nb fresh none).1.mem.G.nodeIds ∧
    name ∈ (add_node_with_neighbors st name ty nb fresh none).1.mem.G.nodeIds ∧
    s(name, n) ∈ (add_node_with_neighbors st name ty nb fresh none).1.mem.G.edges ∧
    (n ∉ st.mem.G.nodeIds → n ≠ name →
      (add_node_with_neighbors st name ty nb fresh none).1.mem.G.nodeType n =
        (if pyStartsWith n ("job_") then some ("job")
         else if pyStartsWith n ("skill_") then some ("skill")
         else if pyStartsWith n ("company_") then some ("company")
         else st.mem.G.nodeType n)) := by
  rw [add_node_G_after hty none]
  refine ⟨foldl_step_mem_nodeIds name nb _ hn, name_mem_insertedGraph, ?_, ?_⟩
  · unfold insertedGraph
    rw [foldl_step_edges]
    simp only [Finset.mem_union, List.mem_toFinset, List.mem_map]
    exact Or.inr ⟨n, hn, rfl⟩
  · intro hnotin hne
    unfold insertedGraph
    have hn1 : n ∉ (st.mem.G.addNode name ty).nodeIds := by
      simp [NXGraph.addNode, hne, hnotin]
    rw [foldl_step_nodeType_fresh name nb _ hne hn1 hn]
    have h2 : (st.mem.G.addNode name ty).nodeType n = st.mem.G.nodeType n := by
      simp [NXGraph.addNode, Function.update_apply, hne]
    rw [h2]

/-- Counterexample to claim C6 as stated: inserting `job_1` with the
neighbor `mystery`, whose prefix matches none of the three conventions,
records the edge with the `mystery` endpoint present but carrying no type
attribute. -/
theorem edge_endpoint_typed_cx :
    (add_node_with_neighbors st0 ("job_1") ("job") ["mystery"] fresh0 none).2 = none ∧
    ("mystery") ∈
      (add_node_with_neighbors st0 ("job_1") ("job") ["mystery"] fresh0 none).1.mem.G.nodeIds ∧
    s(("job_1"), ("mystery")) ∈
      (add_node_with_neighbors st0 ("job_1") ("job") ["mystery"] fresh0 none).1.mem.G.edges ∧
    (add_node_with_neighbors st0 ("job_1") ("job") ["mystery"] fresh0 none).1.mem.G.nodeType
      ("mystery") = none ∧
    pyStartsWith ("mystery") ("job_") = false ∧
    pyStartsWith ("mystery") ("skill_") = false ∧
    pyStartsWith ("mystery") ("company_") = false :=
  ⟨by decide, by decide, by decide, rfl, by decide, by decide, by decide⟩

/-- Witness for `edge_endpoints_amended` at a concrete insert with a
recognized skill-prefixed neighbor. -/
theorem edge_endpoints_amended_witness :
    s(("job_1"), ("skill_Go")) ∈
      (add_node_with_neighbors st0 ("job_1") ("job") ["skill_Go"] fresh0 none).1.mem.G.edges ∧
    (add_node_with_neighbors st0 ("job_1") ("job") ["skill_Go"] fresh0 none).1.mem.G.nodeType
      ("skill_Go") = some ("skill") := by
  have h := edge_endpoints_amended st0 ("job_1") ("job") ["skill_Go"] fresh0
    (by decide) ("skill_Go") (by decide)
  refine ⟨h.2.2.1, ?_⟩
  have h4 := h.2.2.2 (by decide) (by decide)
  rw [h4]
  decide

/-- Claim C7 (confirmed): for every insert in which at least one listed
neighbor already has an embedding, the stored embedding of the inserted
node is exactly the elementwise mean — component `i` is the sum of the
contributing vectors' components `i` divided by their number — of the
embeddings of the listed neighbors present in the embedding dict. -/
theorem insert_mean_embedding
    (st : SysState) (name ty : String) (nb : List String) (fresh : Fin 32 → ℚ)
    (d : ℕ) (hty : ty ∈ (["job", "skill", "company"] : List String))
    (hne : nb.filterMap st.mem.embeddings ≠ [])
    (hlen : ∀ v ∈ nb.filterMap st.mem.embeddings, v.length = d) :
    get_embedding (add_node_with_neighbors st name ty nb fresh none).1 name
      = some (npMean (nb.filterMap st.mem.embeddings)) ∧
    (npMean (nb.filterMap st.mem.embeddings)).length = d ∧
    ∀ i, i < d →
      (npMean (nb.filterMap st.mem.embeddings)).getD i 0
        = ((nb.filterMap st.mem.embeddings).map (fun v => v.getD i 0)).sum
          / ((nb.filterMap st.mem.embeddings).length : ℚ) := by
  refine ⟨?_, npMean_length _ hne hlen, fun i hi => npMean_getD _ i hne hlen hi⟩
  rw [get_embedding_after_insert hty none]
  unfold approx_embedding
  rw [filter_isSome_filterMap, if_neg hne]

/-- Witness for `insert_mean_embedding`: two neighbors with known
embeddings e1 = [1, 3] and e2 = [3, 5] yield exactly their elementwise
mean [2, 4]. -/
theorem insert_mean_embedding_witness :
    get_embedding (add_node_with_neighbors stW ("job_42") ("job")
        ["skill_Go", "skill_Rust"] fresh0 none).1 ("job_42")
      = some (npMean [[1, 3], [3, 5]]) ∧
    npMean [[(1 : ℚ), 3], [3, 5]] = [2, 4] := by
  have h := insert_mean_embedding stW ("job_42") ("job") ["skill_Go", "skill_Rust"]
    fresh0 2 (by decide) (by decide) (by decide)
  constructor
  · have h1 := h.1
    rw [show ["skill_Go", "skill_Rust"].filterMap stW.mem.embeddings
        = [[1, 3], [3, 5]] from by decide] at h1
    exact h1
  · norm_num [npMean, vecSum]

/-- Claim C9 (confirmed): after every successful rebuild the in-memory
store holds exactly the graph and embedding table derived from the dataset,
the ChangeLog is empty, and any node absent from the rebuilt graph — in
particular any pre-rebuild incrementally inserted node not in the dataset —
is NotFound for both readers. -/
theorem rebuild_supersession (st : SysState) (jobs : List JobRow)
    (train : String → Fin 32 → ℚ) :
    (nightly_retrain st jobs train none).2 = none ∧
    (nightly_retrain st jobs train none).1.mem.G = buildGraph jobs ∧
    (nightly_retrain st jobs train none).1.mem.embeddings
      = trainedEmb (buildGraph jobs) train ∧
    (nightly_retrain st jobs train none).1.newNodesLog = [] ∧
    ∀ n, n ∉ (buildGraph jobs).nodeIds →
      get_node (nightly_retrain st jobs train none).1 n = none ∧
      get_embedding (nightly_retrain st jobs train none).1 n = none := by
  rw [nightly_retrain_success]
  refine ⟨rfl, rfl, rfl, rfl, fun n hn => ⟨?_, ?_⟩⟩
  · unfold get_node
    rw [if_neg hn]
  · show trainedEmb (buildGraph jobs) train n = none
    unfold trainedEmb
    rw [if_neg hn]

/-- Witness for `rebuild_supersession`: the incrementally inserted node
`job_gone` is retrievable before the rebuild and NotFound after it, and the
ChangeLog is cleared. -/
theorem rebuild_supersession_witness :
    get_node (add_node_with_neighbors st0 ("job_gone") ("job") [] fresh0 none).1
      ("job_gone") = some (some ("job")) ∧
    ("job_gone") ∉ (buildGraph [row1]).nodeIds ∧
    get_node (nightly_retrain
        (add_node_with_neighbors st0 ("job_gone") ("job") [] fresh0 none).1
        [row1] train0 none).1 ("job_gone") = none ∧
    (nightly_retrain
        (add_node_with_neighbors st0 ("job_gone") ("job") [] fresh0 none).1
        [row1] train0 none).1.newNodesLog = [] := by
  have h := rebuild_supersession
    (add_node_with_neighbors st0 ("job_gone") ("job") [] fresh0 none).1 [row1] train0
  exact ⟨by decide, by decide, (h.2.2.2.2 ("job_gone") (by decide)).1, h.2.2.2.1⟩

/-- Claim C10 (confirmed): a successful insert records exactly one
undirected edge per distinct listed neighbor — the new edge set is the old
one united with the (duplicate-collapsing) finite set of pairs — while the
embedding is averaged over the neighbor list with multiplicity: each
occurrence of a neighbor contributes its vector once to the mean, so a
neighbor listed k times contributes k times. -/
theorem duplicate_neighbor_weighting
    (st : SysState) (name ty : String) (nb : List String) (fresh : Fin 32 → ℚ)
    (hty : ty ∈ (["job", "skill", "company"] : List String)) :
    (add_node_with_neighbors st name ty nb fresh none).1.mem.G.edges
      = st.mem.G.edges ∪ (nb.map (fun n => s(name, n))).toFinset ∧
    (nb.filterMap st.mem.embeddings ≠ [] →
      get_embedding (add_node_with_neighbors st name ty nb fresh none).1 name
        = some (npMean (nb.filterMap st.mem.embeddings))) ∧
    ∀ n v, st.mem.embeddings n = some v →
      nb.count n ≤ (nb.filterMap st.mem.embeddings).count v := by
  refine ⟨?_, ?_, fun n v hv => count_filterMap_ge _ nb n v hv⟩
  · rw [add_node_G_after hty none]
    unfold insertedGraph
    rw [foldl_step_edges]
    rfl
  · intro hne
    rw [get_embedding_after_insert hty none]
    unfold approx_embedding
    rw [filter_isSome_filterMap, if_neg hne]

/-- Witness for `duplicate_neighbor_weighting`: listing `skill_a` twice and
`skill_b` once yields one edge to each, but the embedding (0 + 0 + 3)/3 = 1
— the multiplicity-weighted mean — differing from the distinct-neighbor
mean (0 + 3)/2. -/
theorem duplicate_neighbor_weighting_witness :
    (add_node_with_neighbors stDup ("job_1") ("job")
        ["skill_a", "skill_a", "skill_b"] fresh0 none).1.mem.G.edges
      = ({s(("job_1"), ("skill_a")), s(("job_1"), ("skill_b"))} : Finset (Sym2 String)) ∧
    get_embedding (add_node_with_neighbors stDup ("job_1") ("job")
        ["skill_a", "skill_a", "skill_b"] fresh0 none).1 ("job_1")
      = some (npMean [[0], [0], [3]]) ∧
    ["skill_a", "skill_a", "skill_b"].count ("skill_a") = 2 ∧
    npMean [[(0 : ℚ)], [0], [3]] = [1] ∧
    npMean [[(0 : ℚ)], [3]] = [3 / 2] ∧
    npMean [[(0 : ℚ)], [0], [3]] ≠ npMean [[(0 : ℚ)], [3]] := by
  have h := duplicate_neighbor_weighting stDup ("job_1") ("job")
    ["skill_a", "skill_a", "skill_b"] fresh0 (by decide)
  refine ⟨?_, ?_, by decide, by norm_num [npMean, vecSum], by norm_num [npMean, vecSum],
    by norm_num [npMean, vecSum]⟩
  · rw [h.1]
    decide
  · have h2 := h.2.1 (by decide)
    rw [show ["skill_a", "skill_a", "skill_b"].filterMap stDup.mem.embeddings
        = [[0], [0], [3]] from by decide] at h2
    exact h2

section StringFacts

theorem toFinset_map' {α β : Type} [DecidableEq α] [DecidableEq β]
    (f : α → β) (l : List α) : (l.map f).toFinset = l.toFinset.image f := by
  ext x
  simp

theorem append_left_injective (p : String) :
    Function.Injective (fun x : String => p ++ x) := by
  intro x y h
  have h2 := congrArg String.data h
  rw [String.data_append, String.data_append] at h2
  exact String.ext (List.append_cancel_left h2)

theorem jobStr_ne_companyStr (x y : String) : ("job_" ++ x) ≠ ("company_" ++ y) := by
  intro h
  have h2 := congrArg String.data h
  rw [String.data_append, String.data_append,
    show ("job_").data = ['j', 'o', 'b', '_'] from rfl,
    show ("company_").data = ['c', 'o', 'm', 'p', 'a', 'n', 'y', '_'] from rfl] at h2
  simp only [List.cons_append] at h2
  injection h2 with h3 h4
  exact absurd h3 (by decide)

theorem jobStr_ne_skillStr (x y : String) : ("job_" ++ x) ≠ ("skill_" ++ y) := by
  intro h
  have h2 := congrArg String.data h
  rw [String.data_append, String.data_append,
    show ("job_").data = ['j', 'o', 'b', '_'] from rfl,
    show ("skill_").data = ['s', 'k', 'i', 'l', 'l', '_'] from rfl] at h2
  simp only [List.cons_append] at h2
  injection h2 with h3 h4
  exact absurd h3 (by decide)

theorem companyStr_ne_skillStr (x y : String) :
    ("company_" ++ x) ≠ ("skill_" ++ y) := by
  intro h
  have h2 := congrArg String.data h
  rw [String.data_append, String.data_append,
    show ("company_").data = ['c', 'o', 'm', 'p', 'a', 'n', 'y', '_'] from rfl,
    show ("skill_").data = ['s', 'k', 'i', 'l', 'l', '_'] from rfl] at h2
  simp only [List.cons_append] at h2
  injection h2 with h3 h4
  exact absurd h3 (by decide)

theorem jobNodeOf_ne_companyNodeOf (r r' : JobRow) :
    jobNodeOf r ≠ companyNodeOf r' :=
  jobStr_ne_companyStr r.job_id r'.company

theorem jobNodeOf_ne_skillNodeOf (r : JobRow) (sk : String) :
    jobNodeOf r ≠ skillNodeOf sk :=
  jobStr_ne_skillStr r.job_id sk

theorem companyNodeOf_ne_skillNodeOf (r : JobRow) (sk : String) :
    companyNodeOf r ≠ skillNodeOf sk :=
  companyStr_ne_skillStr r.company sk

theorem jobNodeOf_inj (r r' : JobRow) (h : jobNodeOf r = jobNodeOf r') :
    r.job_id = r'.job_id :=
  append_left_injective ("job_") h

theorem skillNodeOf_inj (a b : String) (h : skillNodeOf a = skillNodeOf b) :
    a = b :=
  append_left_injective ("skill_") h

end StringFacts

section RebuildStructure

theorem rowStep_eq (G : NXGraph) (r : JobRow) :
    rowStep G r = (rowSkills r).foldl (skStep r)
      (((G.addNode (jobNodeOf r) ("job")).addNode (companyNodeOf r)
          ("company")).addEdgeRel (jobNodeOf r) (companyNodeOf r) ("POSTED_BY")) := by
  unfold rowStep rowSkills skStep
  rw [List.foldl_map]

theorem skStep_nodeIds (r : JobRow) (g : NXGraph) (sk : String)
    (hj : jobNodeOf r ∈ g.nodeIds) :
    (skStep r g sk).nodeIds = insert (skillNodeOf sk) g.nodeIds := by
  unfold skStep NXGraph.addNode NXGraph.addEdgeRel
  simp only
  rw [Finset.insert_idem]
  rw [Finset.insert_eq_self.mpr (Finset.mem_insert_of_mem hj)]

theorem skStep_edges (r : JobRow) (g : NXGraph) (sk : String) :
    (skStep r g sk).edges = insert s(jobNodeOf r, skillNodeOf sk) g.edges := rfl

theorem skStep_edgeRel (r : JobRow) (g : NXGraph) (sk : String) :
    (skStep r g sk).edgeRel =
      Function.update g.edgeRel s(jobNodeOf r, skillNodeOf sk)
        (some ("REQUIRES_SKILL")) := rfl

theorem skFold_nodeIds (r : JobRow) (l : List String) (g : NXGraph)
    (hj : jobNodeOf r ∈ g.nodeIds) :
    ((l.foldl (skStep r) g)).nodeIds = g.nodeIds ∪ (l.map skillNodeOf).toFinset := by
  induction l generalizing g with
  | nil => simp
  | cons sk l ih =>
      rw [List.foldl_cons, ih _ (by rw [skStep_nodeIds r g sk hj]; simp [hj]),
        skStep_nodeIds r g sk hj]
      ext x
      simp


theorem skFold_edges (r : JobRow) (l : List String) (g : NXGraph) :
    ((l.foldl (skStep r) g)).edges
      = g.edges ∪ (l.map (fun sk => s(jobNodeOf r, skillNodeOf sk))).toFinset := by
  induction l generalizing g with
  | nil => simp
  | cons sk l ih =>
      rw [List.foldl_cons, ih, skStep_edges]
      ext x
      simp


theorem skFold_edgeRel_ne (r : JobRow) (l : List String) (g : NXGraph)
    (k : Sym2 String) (hk : ∀ sk ∈ l, k ≠ s(jobNodeOf r, skillNodeOf sk)) :
    ((l.foldl (skStep r) g)).edgeRel k = g.edgeRel k := by
  induction l generalizing g with
  | nil => rfl
  | cons sk l ih =>
      rw [List.foldl_cons, ih _ (fun t ht => hk t (by simp [ht])), skStep_edgeRel]
      rw [Function.update_apply, if_neg (hk sk (by simp))]

theorem skFold_edgeRel_of_mem (r : JobRow) (l : List String) (g : NXGraph)
    (sk : String) (h : sk ∈ l) :
    ((l.foldl (skStep r) g)).edgeRel s(jobNodeOf r, skillNodeOf sk)
      = some ("REQUIRES_SKILL") := by
  induction l generalizing g with
  | nil => cases h
  | cons t l ih =>
      rw [List.foldl_cons]
      by_cases hmem : sk ∈ l
      · exact ih _ hmem
      · have hst : sk = t := by
          rcases List.mem_cons.mp h with h1 | h1
          · exact h1
          · exact absurd h1 hmem
        subst hst
        rw [skFold_edgeRel_ne r l _ _ ?hne]
        · rw [skStep_edgeRel, Function.update_same]
        case hne =>
          intro t' ht' heq
          rcases Sym2.eq_iff.mp heq with ⟨_, h2⟩ | ⟨h2, _⟩
          · exact hmem (skillNodeOf_inj sk t' h2 ▸ ht')
          · exact jobNodeOf_ne_skillNodeOf r t' h2

theorem rowStep_nodeIds (G : NXGraph) (r : JobRow) :
    (rowStep G r).nodeIds = G.nodeIds ∪ rowNodes r := by
  rw [rowStep_eq, skFold_nodeIds r _ _ (by simp [NXGraph.addNode, NXGraph.addEdgeRel])]
  unfold NXGraph.addNode NXGraph.addEdgeRel rowNodes
  simp only
  ext x
  simp
  tauto

theorem rowStep_edges (G : NXGraph) (r : JobRow) :
    (rowStep G r).edges = G.edges ∪ rowEdges r := by
  rw [rowStep_eq, skFold_edges]
  unfold NXGraph.addNode NXGraph.addEdgeRel rowEdges rowSkillEdges
  simp only
  ext x
  simp

theorem addNode_edgeRel (G : NXGraph) (n t : String) :
    (G.addNode n t).edgeRel = G.edgeRel := rfl

theorem addEdgeRel_edgeRel (G : NXGraph) (u v rl : String) :
    (G.addEdgeRel u v rl).edgeRel = Function.update G.edgeRel s(u, v) (some rl) := rfl

theorem rowStep_edgeRel_pc (G : NXGraph) (r : JobRow) :
    (rowStep G r).edgeRel s(jobNodeOf r, companyNodeOf r) = some ("POSTED_BY") := by
  have hne : ∀ sk ∈ rowSkills r,
      s(jobNodeOf r, companyNodeOf r) ≠ s(jobNodeOf r, skillNodeOf sk) := by
    intro sk hsk heq
    rcases Sym2.eq_iff.mp heq with ⟨_, h2⟩ | ⟨h2, _⟩
    · exact companyNodeOf_ne_skillNodeOf r sk h2
    · exact jobNodeOf_ne_skillNodeOf r sk h2
  rw [rowStep_eq, skFold_edgeRel_ne r _ _ _ hne, addEdgeRel_edgeRel,
    Function.update_same]

theorem rowStep_edgeRel_sk (G : NXGraph) (r : JobRow) (sk : String)
    (h : sk ∈ rowSkills r) :
    (rowStep G r).edgeRel s(jobNodeOf r, skillNodeOf sk)
      = some ("REQUIRES_SKILL") := by
  rw [rowStep_eq]
  exact skFold_edgeRel_of_mem r _ _ sk h

theorem rowStep_edgeRel_ne (G : NXGraph) (r : JobRow) (k : Sym2 String)
    (hk1 : k ≠ s(jobNodeOf r, companyNodeOf r))
    (hk2 : ∀ sk ∈ rowSkills r, k ≠ s(jobNodeOf r, skillNodeOf sk)) :
    (rowStep G r).edgeRel k = G.edgeRel k := by
  rw [rowStep_eq, skFold_edgeRel_ne r _ _ _ hk2, addEdgeRel_edgeRel,
    Function.update_apply, if_neg hk1, addNode_edgeRel, addNode_edgeRel]

end RebuildStructure

section BuildGraphFacts

theorem jobNodes_cons (r : JobRow) (rest : List JobRow) :
    jobNodes (r :: rest) = insert (jobNodeOf r) (jobNodes rest) := by
  unfold jobNodes
  rw [List.map_cons, List.toFinset_cons]

theorem companyNodes_cons (r : JobRow) (rest : List JobRow) :
    companyNodes (r :: rest) = insert (companyNodeOf r) (companyNodes rest) := by
  unfold companyNodes
  rw [List.map_cons, List.toFinset_cons]

theorem skillNodes_cons (r : JobRow) (rest : List JobRow) :
    skillNodes (r :: rest)
      = ((rowSkills r).map skillNodeOf).toFinset ∪ skillNodes rest := by
  unfold skillNodes
  rw [List.flatMap_cons, List.map_append, List.toFinset_append]

theorem postedByEdges_cons (r : JobRow) (rest : List JobRow) :
    postedByEdges (r :: rest)
      = insert s(jobNodeOf r, companyNodeOf r) (postedByEdges rest) := by
  unfold postedByEdges
  rw [List.map_cons, List.toFinset_cons]

theorem requiresSkillEdges_cons (r : JobRow) (rest : List JobRow) :
    requiresSkillEdges (r :: rest) = rowSkillEdges r ∪ requiresSkillEdges rest := by
  unfold requiresSkillEdges rowSkillEdges
  rw [List.flatMap_cons, List.toFinset_append]

theorem foldl_rowStep_nodeIds (jobs : List JobRow) (G : NXGraph) :
    (jobs.foldl rowStep G).nodeIds
      = G.nodeIds ∪ (jobNodes jobs ∪ companyNodes jobs ∪ skillNodes jobs) := by
  induction jobs generalizing G with
  | nil => simp [jobNodes, companyNodes, skillNodes]
  | cons r rest ih =>
      rw [List.foldl_cons, ih, rowStep_nodeIds, jobNodes_cons, companyNodes_cons,
        skillNodes_cons]
      unfold rowNodes
      simp only [Finset.insert_eq]
      simp [Finset.union_assoc, Finset.union_comm, Finset.union_left_comm]

theorem buildGraph_nodeIds (jobs : List JobRow) :
    (buildGraph jobs).nodeIds
      = jobNodes jobs ∪ companyNodes jobs ∪ skillNodes jobs := by
  unfold buildGraph
  rw [foldl_rowStep_nodeIds]
  show (∅ : Finset String) ∪ _ = _
  rw [Finset.empty_union]

theorem foldl_rowStep_edges (jobs : List JobRow) (G : NXGraph) :
    (jobs.foldl rowStep G).edges
      = G.edges ∪ (postedByEdges jobs ∪ requiresSkillEdges jobs) := by
  induction jobs generalizing G with
  | nil => simp [postedByEdges, requiresSkillEdges]
  | cons r rest ih =>
      rw [List.foldl_cons, ih, rowStep_edges, postedByEdges_cons,
        requiresSkillEdges_cons]
      unfold rowEdges
      simp only [Finset.insert_eq]
      simp [Finset.union_assoc, Finset.union_comm, Finset.union_left_comm]

theorem buildGraph_edges (jobs : List JobRow) :
    (buildGraph jobs).edges = postedByEdges jobs ∪ requiresSkillEdges jobs := by
  unfold buildGraph
  rw [foldl_rowStep_edges]
  show (∅ : Finset (Sym2 String)) ∪ _ = _
  rw [Finset.empty_union]

theorem rowKeys_ne (r r' : JobRow) (hid : r.job_id ≠ r'.job_id) (x : String) :
    s(jobNodeOf r, x) ≠ s(jobNodeOf r', companyNodeOf r') ∧
    ∀ sk' ∈ rowSkills r', s(jobNodeOf r, x) ≠ s(jobNodeOf r', skillNodeOf sk') := by
  have hjj : jobNodeOf r ≠ jobNodeOf r' := fun h => hid (jobNodeOf_inj r r' h)
  constructor
  · intro heq
    rcases Sym2.eq_iff.mp heq with ⟨h1, _⟩ | ⟨h1, _⟩
    · exact hjj h1
    · exact jobNodeOf_ne_companyNodeOf r r' h1
  · intro sk' _ heq
    rcases Sym2.eq_iff.mp heq with ⟨h1, _⟩ | ⟨h1, _⟩
    · exact hjj h1
    · exact jobNodeOf_ne_skillNodeOf r sk' h1

theorem foldl_rowStep_edgeRel_ne (jobs : List JobRow) (G : NXGraph) (k : Sym2 String)
    (hk : ∀ r' ∈ jobs, k ≠ s(jobNodeOf r', companyNodeOf r') ∧
          ∀ sk ∈ rowSkills r', k ≠ s(jobNodeOf r', skillNodeOf sk)) :
    (jobs.foldl rowStep G).edgeRel k = G.edgeRel k := by
  induction jobs generalizing G with
  | nil => rfl
  | cons r rest ih =>
      rw [List.foldl_cons, ih _ (fun r' hr' => hk r' (by simp [hr'])),
        rowStep_edgeRel_ne _ _ _ (hk r (by simp)).1 (hk r (by simp)).2]

theorem foldl_rowStep_edgeRel_row (jobs : List JobRow) (G : NXGraph)
    (hnodup : (jobs.map JobRow.job_id).Nodup) (r : JobRow) (hr : r ∈ jobs) :
    (jobs.foldl rowStep G).edgeRel s(jobNodeOf r, companyNodeOf r)
      = some ("POSTED_BY") ∧
    ∀ sk ∈ rowSkills r,
      (jobs.foldl rowStep G).edgeRel s(jobNodeOf r, skillNodeOf sk)
        = some ("REQUIRES_SKILL") := by
  induction jobs generalizing G with
  | nil => cases hr
  | cons r0 rest ih =>
      rw [List.foldl_cons]
      rw [List.map_cons, List.nodup_cons] at hnodup
      rcases List.mem_cons.mp hr with rfl | hmem
      · have hpres : ∀ k, (k = s(jobNodeOf r, companyNodeOf r) ∨
            ∃ sk, k = s(jobNodeOf r, skillNodeOf sk)) →
            (rest.foldl rowStep (rowStep G r)).edgeRel k
              = (rowStep G r).edgeRel k := by
          intro k hkforms
          refine foldl_rowStep_edgeRel_ne rest _ k ?_
          intro r' hr'
          have hid : r.job_id ≠ r'.job_id := by
            intro h
            exact hnodup.1 (h ▸ List.mem_map_of_mem JobRow.job_id hr')
          rcases hkforms with rfl | ⟨sk, rfl⟩
          · exact rowKeys_ne r r' hid (companyNodeOf r)
          · exact rowKeys_ne r r' hid (skillNodeOf sk)
        constructor
        · rw [hpres _ (Or.inl rfl), rowStep_edgeRel_pc]
        · intro sk hsk
          rw [hpres _ (Or.inr ⟨sk, rfl⟩), rowStep_edgeRel_sk G r sk hsk]
      · exact ih _ hnodup.2 hmem

theorem buildGraph_edgeRel_row (jobs : List JobRow)
    (hnodup : (jobs.map JobRow.job_id).Nodup) (r : JobRow) (hr : r ∈ jobs) :
    (buildGraph jobs).edgeRel s(jobNodeOf r, companyNodeOf r)
      = some ("POSTED_BY") ∧
    ∀ sk ∈ rowSkills r,
      (buildGraph jobs).edgeRel s(jobNodeOf r, skillNodeOf sk)
        = some ("REQUIRES_SKILL") :=
  foldl_rowStep_edgeRel_row jobs NXGraph.empty hnodup r hr

end BuildGraphFacts

section CardFacts

theorem jobNodes_card (jobs : List JobRow) (h : (jobs.map JobRow.job_id).Nodup) :
    (jobNodes jobs).card = jobs.length := by
  unfold jobNodes
  have hmm : jobs.map jobNodeOf
      = (jobs.map JobRow.job_id).map (fun x => "job_" ++ x) := by
    rw [List.map_map]
    rfl
  rw [hmm, List.toFinset_card_of_nodup
      (List.Nodup.map (append_left_injective ("job_")) h),
    List.length_map, List.length_map]

theorem companyNodes_card (jobs : List JobRow) :
    (companyNodes jobs).card = (jobs.map JobRow.company).toFinset.card := by
  unfold companyNodes
  have hmm : jobs.map companyNodeOf
      = (jobs.map JobRow.company).map (fun x => "company_" ++ x) := by
    rw [List.map_map]
    rfl
  rw [hmm, toFinset_map',
    Finset.card_image_of_injective _ (append_left_injective ("company_"))]

theorem skillNodes_card (jobs : List JobRow) :
    (skillNodes jobs).card = (jobs.flatMap rowSkills).toFinset.card := by
  unfold skillNodes
  rw [toFinset_map',
    Finset.card_image_of_injective _ (fun a b hab => skillNodeOf_inj a b hab)]

theorem jobNodes_disj_companyNodes (jobs : List JobRow) :
    Disjoint (jobNodes jobs) (companyNodes jobs) := by
  rw [Finset.disjoint_left]
  intro x hx hx'
  simp only [jobNodes, companyNodes, List.mem_toFinset, List.mem_map] at hx hx'
  obtain ⟨r, _, rfl⟩ := hx
  obtain ⟨r', _, heq⟩ := hx'
  exact jobNodeOf_ne_companyNodeOf r r' heq.symm

theorem jobCompanyNodes_disj_skillNodes (jobs : List JobRow) :
    Disjoint (jobNodes jobs ∪ companyNodes jobs) (skillNodes jobs) := by
  rw [Finset.disjoint_left]
  intro x hx hx'
  simp only [skillNodes, List.mem_toFinset, List.mem_map] at hx'
  obtain ⟨sk, _, heq⟩ := hx'
  rcases Finset.mem_union.mp hx with hx1 | hx1
  · simp only [jobNodes, List.mem_toFinset, List.mem_map] at hx1
    obtain ⟨r, _, rfl⟩ := hx1
    exact jobNodeOf_ne_skillNodeOf r sk heq.symm
  · simp only [companyNodes, List.mem_toFinset, List.mem_map] at hx1
    obtain ⟨r, _, rfl⟩ := hx1
    exact companyNodeOf_ne_skillNodeOf r sk heq.symm

theorem buildGraph_nodeIds_card (jobs : List JobRow)
    (h : (jobs.map JobRow.job_id).Nodup) :
    (buildGraph jobs).nodeIds.card
      = jobs.length + (jobs.map JobRow.company).toFinset.card
        + (jobs.flatMap rowSkills).toFinset.card := by
  rw [buildGraph_nodeIds,
    Finset.card_union_of_disjoint (jobCompanyNodes_disj_skillNodes jobs),
    Finset.card_union_of_disjoint (jobNodes_disj_companyNodes jobs),
    jobNodes_card jobs h, companyNodes_card, skillNodes_card]

theorem postedByEdges_card (jobs : List JobRow)
    (h : (jobs.map JobRow.job_id).Nodup) :
    (postedByEdges jobs).card = jobs.length := by
  unfold postedByEdges
  have hnd : (jobs.map (fun r => s(jobNodeOf r, companyNodeOf r))).Nodup := by
    refine List.Nodup.map_on ?_ (List.Nodup.of_map _ h)
    intro x hx y hy heq
    rcases Sym2.eq_iff.mp heq with ⟨h1, _⟩ | ⟨h1, _⟩
    · exact List.inj_on_of_nodup_map h hx hy (jobNodeOf_inj x y h1)
    · exact absurd h1 (jobNodeOf_ne_companyNodeOf x y)
  rw [List.toFinset_card_of_nodup hnd, List.length_map]

theorem rowSkillEdges_card (r : JobRow) :
    (rowSkillEdges r).card = (rowSkills r).toFinset.card := by
  unfold rowSkillEdges
  have hinj : Function.Injective (fun sk => s(jobNodeOf r, skillNodeOf sk)) := by
    intro a b heq
    rcases Sym2.eq_iff.mp heq with ⟨_, h2⟩ | ⟨h1, _⟩
    · exact skillNodeOf_inj a b h2
    · exact absurd h1 (jobNodeOf_ne_skillNodeOf r b)
  rw [toFinset_map', Finset.card_image_of_injective _ hinj]

theorem requiresSkillEdges_card (jobs : List JobRow)
    (h : (jobs.map JobRow.job_id).Nodup) :
    (requiresSkillEdges jobs).card
      = (jobs.map (fun r => (rowSkills r).toFinset.card)).sum := by
  induction jobs with
  | nil => simp [requiresSkillEdges]
  | cons r rest ih =>
      rw [List.map_cons, List.nodup_cons] at h
      have hdisj : Disjoint (rowSkillEdges r) (requiresSkillEdges rest) := by
        rw [Finset.disjoint_left]
        intro k hk hk'
        simp only [rowSkillEdges, requiresSkillEdges, List.mem_toFinset,
          List.mem_map, List.mem_flatMap] at hk hk'
        obtain ⟨sk, hsk, rfl⟩ := hk
        obtain ⟨r', hr', sk', hsk', heq⟩ := hk'
        rcases Sym2.eq_iff.mp heq with ⟨h1, _⟩ | ⟨h1, _⟩
        · exact h.1 ((jobNodeOf_inj r' r h1) ▸ List.mem_map_of_mem JobRow.job_id hr')
        · exact jobNodeOf_ne_skillNodeOf r' sk h1
      rw [requiresSkillEdges_cons, Finset.card_union_of_disjoint hdisj,
        rowSkillEdges_card, ih h.2, List.map_cons, List.sum_cons]

theorem postedBy_disj_requiresSkill (jobs : List JobRow) :
    Disjoint (postedByEdges jobs) (requiresSkillEdges jobs) := by
  rw [Finset.disjoint_left]
  intro k hk hk'
  simp only [postedByEdges, requiresSkillEdges, List.mem_toFinset,
    List.mem_map, List.mem_flatMap] at hk hk'
  obtain ⟨r, _, rfl⟩ := hk
  obtain ⟨r', _, sk, _, heq⟩ := hk'
  rcases Sym2.eq_iff.mp heq with ⟨_, h2⟩ | ⟨h1, _⟩
  · exact companyNodeOf_ne_skillNodeOf r sk h2.symm
  · exact jobNodeOf_ne_companyNodeOf r' r h1

theorem buildGraph_edges_card (jobs : List JobRow)
    (h : (jobs.map JobRow.job_id).Nodup) :
    (buildGraph jobs).edges.card
      = jobs.length + (jobs.map (fun r => (rowSkills r).toFinset.card)).sum := by
  rw [buildGraph_edges, Finset.card_union_of_disjoint (postedBy_disj_requiresSkill jobs),
    postedByEdges_card jobs h, requiresSkillEdges_card jobs h]

end CardFacts

/-- Claim C8 (confirmed): for every dataset whose job ids are pairwise
distinct, the rebuilt graph has exactly the expected shape: its node set is
one node per job plus one per distinct company plus one per distinct
(stripped) skill — so the node count is the row count plus the number of
distinct companies plus the number of distinct skills — and its edge set is
one POSTED_BY job–company edge per row plus one REQUIRES_SKILL job–skill
edge per (job, skill) pair — so the edge count is the row count plus the
sum of the per-job distinct-skill counts. -/
theorem rebuild_graph_shape (jobs : List JobRow)
    (h : (jobs.map JobRow.job_id).Nodup) :
    (buildGraph jobs).nodeIds
      = jobNodes jobs ∪ companyNodes jobs ∪ skillNodes jobs ∧
    (buildGraph jobs).nodeIds.card
      = jobs.length + (jobs.map JobRow.company).toFinset.card
        + (jobs.flatMap rowSkills).toFinset.card ∧
    (buildGraph jobs).edges = postedByEdges jobs ∪ requiresSkillEdges jobs ∧
    (buildGraph jobs).edges.card
      = jobs.length + (jobs.map (fun r => (rowSkills r).toFinset.card)).sum ∧
    ∀ r ∈ jobs,
      (buildGraph jobs).edgeRel s(jobNodeOf r, companyNodeOf r)
        = some ("POSTED_BY") ∧
      ∀ sk ∈ rowSkills r,
        (buildGraph jobs).edgeRel s(jobNodeOf r, skillNodeOf sk)
          = some ("REQUIRES_SKILL") :=
  ⟨buildGraph_nodeIds jobs, buildGraph_nodeIds_card jobs h, buildGraph_edges jobs,
    buildGraph_edges_card jobs h, fun r hr => buildGraph_edgeRel_row jobs h r hr⟩

/-- Witness for `rebuild_graph_shape`: the three-row dataset `jobs3` (3
jobs, 2 distinct companies, 3 distinct skills, per-row skill counts 2, 1,
3) yields node count 3 + 2 + 3 = 8 and edge count 3 + 6 = 9. -/
theorem rebuild_graph_shape_witness :
    (jobs3.map JobRow.job_id).Nodup ∧
    jobs3.length = 3 ∧
    (jobs3.map JobRow.company).toFinset.card = 2 ∧
    (jobs3.flatMap rowSkills).toFinset.card = 3 ∧
    (jobs3.map (fun r => (rowSkills r).toFinset.card)).sum = 6 ∧
    (buildGraph jobs3).nodeIds.card = 8 ∧
    (buildGraph jobs3).edges.card = 9 := by
  have h := rebuild_graph_shape jobs3 (by decide)
  refine ⟨by decide, by decide, by decide, by decide, by decide, ?_, ?_⟩
  · rw [h.2.1]
    decide
  · rw [h.2.2.2.1]
    decide
